import Mathlib

/-
Verification of the R-tree spatial index (src/app/main.ts, first revision,
lines 1-558) against its specification.  Coordinates are modelled as
integers: the source operates on finite JS numbers, and every geometric
operation it performs (min, max, comparison, addition, subtraction,
multiplication) is uniform in the ordered ring, so the integer model is
faithful to the operations while keeping every definition computable by
the kernel.  Each definition below is a direct shallow embedding of the
corresponding TypeScript function; mutable updates are expressed by
returning the updated value.
-/

/-- Axis-aligned bounding box, mirroring class BoundingBox (fields minX,
minY, maxX, maxY). -/
structure BBox where
  minX : Int
  minY : Int
  maxX : Int
  maxY : Int
deriving DecidableEq, Repr

/-- BoundingBox.intersects (main.ts lines 25-33): true iff there is no
separating gap on either axis; comparisons are strict, so touching boxes
intersect. -/
def BBox.intersectsB (a b : BBox) : Bool :=
  !(decide (a.maxX < b.minX) || decide (a.minX > b.maxX) ||
    decide (a.maxY < b.minY) || decide (a.minY > b.maxY))

/-- BoundingBox.expandToInclude (lines 45-51): componentwise min/max,
returned as a new box (the source mutates in place). -/
def BBox.unionB (a b : BBox) : BBox :=
  ⟨min a.minX b.minX, min a.minY b.minY, max a.maxX b.maxX, max a.maxY b.maxY⟩

/-- BoundingBox.area (lines 53-55). -/
def BBox.areaB (a : BBox) : Int :=
  (a.maxX - a.minX) * (a.maxY - a.minY)

/-- The polymorphic Shape variants: BoundingBox, Circle, Polygon
(main.ts lines 8-145).  Circle.area uses pi and is not needed by any
claim, so shape area is not modelled. -/
inductive Shape where
  | rect (b : BBox)
  | circle (cx cy r : Int)
  | polygon (pts : List (Int × Int))
deriving DecidableEq, Repr

/-- Fold computing the componentwise extremum of a polygon's vertices,
mirroring Math.min/Math.max over the coordinate arrays. -/
def polyMBR (p : Int × Int) (rest : List (Int × Int)) : BBox :=
  rest.foldl (fun acc q => ⟨min acc.minX q.1, min acc.minY q.2,
    max acc.maxX q.1, max acc.maxY q.2⟩) ⟨p.1, p.2, p.1, p.2⟩

/-- Shape.getBoundingBox for each variant (lines 21-23, 69-76, 106-115).
Math.min over an empty vertex array is Infinity in JS; the empty-polygon
box is an arbitrary placeholder, the index never stores one. -/
def Shape.mbr : Shape → BBox
  | .rect b => b
  | .circle cx cy r => ⟨cx - r, cy - r, cx + r, cy + r⟩
  | .polygon [] => ⟨0, 0, 0, 0⟩
  | .polygon (p :: rest) => polyMBR p rest

/-- Shape.intersects: every variant (lines 25-33, 78-85, 117-124) reduces
to the bounding-box overlap test of the two shapes' MBRs. -/
def Shape.intersectsS (s o : Shape) : Bool :=
  BBox.intersectsB s.mbr o.mbr

/-- The payload records stored in the tree (interface constraint
T extends id plus name, line 224). -/
structure Payload where
  id : Int
  name : String
deriving DecidableEq, Repr

/- The tree. TreeElement (lines 147-165) always has either data set and
child null (created in insert, line 236) or child set and data null
(created at splits and in condense).  RTreeNode (lines 167-222) holds an
ordered element list and a leaf flag.  The parent back-reference is not
represented: the only place it is read is the condense detach, which is a
no-op (see condenseStep below).  A dedicated mutual list type keeps all
recursion structural, hence kernel-computable. -/
mutual
inductive Elem : Type where
  | payload (shape : Shape) (data : Payload) : Elem
  | branch (box : BBox) (child : RNode) : Elem
inductive Elems : Type where
  | nil : Elems
  | cons (e : Elem) (rest : Elems) : Elems
inductive RNode : Type where
  | node (isLeaf : Bool) (elements : Elems) : RNode
end

/-- The element list of a node. -/
def RNode.elems : RNode → Elems
  | .node _ es => es

/-- The leaf flag of a node. -/
def RNode.leafFlag : RNode → Bool
  | .node l _ => l

/-- TreeElement.getBoundingBox (lines 162-164): the MBR the element
reports, which for internal elements is the cached box. -/
def Elem.ebox : Elem → BBox
  | .payload s _ => s.mbr
  | .branch b _ => b

/-- The shape stored in the element (internal elements store the cached
box as a BoundingBox shape). -/
def Elem.eshape : Elem → Shape
  | .payload s _ => s
  | .branch b _ => .rect b

namespace Elems

/-- List length. -/
def length : Elems → Nat
  | .nil => 0
  | .cons _ rest => 1 + rest.length

/-- List concatenation. -/
def append : Elems → Elems → Elems
  | .nil, ys => ys
  | .cons e rest, ys => .cons e (append rest ys)

/-- Push one element at the end (RTreeNode.addElement, lines 178-183;
the parent-pointer assignment is not represented). -/
def push (es : Elems) (e : Elem) : Elems :=
  append es (.cons e .nil)

/-- Array.prototype.slice(0, n). -/
def take : Nat → Elems → Elems
  | 0, _ => .nil
  | _ + 1, .nil => .nil
  | n + 1, .cons e rest => .cons e (take n rest)

/-- Array.prototype.slice(n). -/
def drop : Nat → Elems → Elems
  | 0, es => es
  | _ + 1, .nil => .nil
  | n + 1, .cons _ rest => drop n rest

/-- Positional lookup. -/
def get? : Elems → Nat → Option Elem
  | .nil, _ => none
  | .cons e _, 0 => some e
  | .cons _ rest, n + 1 => rest.get? n

/-- Replace the element at a position (in-place field assignment on the
element object in the source). -/
def setAt : Elems → Nat → Elem → Elems
  | .nil, _, _ => .nil
  | .cons _ rest, 0, x => .cons x rest
  | .cons e rest, n + 1, x => .cons e (rest.setAt n x)

/-- Remove the element at a position (Array.prototype.splice(i, 1), used
by removeElement, and the filter removing bestFitElement). -/
def eraseAt : Elems → Nat → Elems
  | .nil, _ => .nil
  | .cons _ rest, 0 => rest
  | .cons e rest, n + 1 => .cons e (rest.eraseAt n)

/-- RTreeNode.getMBR inner loop (lines 195-203): expand a copy of the
first element's box by every following element's box. -/
def mbrGo (acc : BBox) : Elems → BBox
  | .nil => acc
  | .cons e rest => mbrGo (BBox.unionB acc e.ebox) rest

/-- RTreeNode.getMBR (lines 195-203): none exactly when the node is
empty. -/
def getMBR : Elems → Option BBox
  | .nil => none
  | .cons e rest => some (mbrGo e.ebox rest)

end Elems

/-- RTreeNode.split (lines 205-221): order-preserving half cut at
floor(length / 2); both halves keep the leaf flag. -/
def RNode.splitN : RNode → RNode × RNode
  | .node l es =>
    (.node l (es.take (es.length / 2)), .node l (es.drop (es.length / 2)))

/-- The tree handle (class RTree, lines 224-233). -/
structure RTree where
  maxEntries : Nat
  minEntries : Nat
  root : RNode

/-- The RTree constructor (lines 229-233): the maxEntries parameter
defaults to 4 when omitted; minEntries is floor(maxEntries / 2); the
root starts as an empty leaf. -/
def RTree.make (m? : Option Nat) : RTree :=
  let m := m?.getD 4
  { maxEntries := m, minEntries := m / 2, root := .node true .nil }

/-- Area enlargement needed for an existing element's MBR to include the
box eb (the body of the forEach in RTree._insert, lines 251-268):
newMBR is a copy of the element's box expanded to include eb, and the
increase is newMBR.area() minus the current area. -/
def areaInc (eb : BBox) (el : Elem) : Int :=
  (BBox.unionB el.ebox eb).areaB - el.ebox.areaB

/-- The accumulator loop of the forEach in RTree._insert: bi, be, bv are
the index, element and area increase of the current best fit; idx is the
index of the next element.  Only a strictly smaller increase replaces the
best fit, so the first minimiser wins. -/
def chooseGo (eb : BBox) : Elems → Nat → Nat → Elem → Int → Nat × Elem
  | .nil, _, bi, be, _ => (bi, be)
  | .cons e rest, idx, bi, be, bv =>
    if areaInc eb e < bv then chooseGo eb rest (idx + 1) idx e (areaInc eb e)
    else chooseGo eb rest (idx + 1) bi be bv

/-- The choose-subtree selection of RTree._insert (lines 248-268):
minAreaIncrease starts at Infinity, so the first element always becomes
the initial best fit; afterwards only strictly smaller enlargement
replaces it.  Returns the index together with the chosen element, or
none when the node has no elements (bestFitElement stays undefined). -/
def chooseBest (eb : BBox) : Elems → Option (Nat × Elem)
  | .nil => none
  | .cons e rest => some (chooseGo eb rest 1 0 e (areaInc eb e))

/-- Append the internal entry for a split half, skipping an empty half
(the if (left.getMBR()) guards in lines 277-282 and 293-298). -/
def pushHalf (es : Elems) (n : RNode) : Elems :=
  match Elems.getMBR n.elems with
  | some mb => es.push (.branch mb n)
  | none => es

mutual
/-- RTree._insert (lines 244-288).  At a leaf the element is appended.
At an internal node the best-fit element is selected; if it has no child
(bestFitElement undefined or a payload element) the new element is
appended to this node, otherwise the insertion recurses into the child,
the cached box is expanded in place, and an overflowing child is split:
the best-fit entry is removed and entries for the two halves are pushed
at the end. -/
def insertAux (maxE : Nat) (e : Elem) : RNode → RNode
  | .node true es => .node true (es.push e)
  | .node false es =>
    match chooseBest e.ebox es with
    | none => .node false (es.push e)
    | some (i, _) => .node false (descend maxE e i es)

/-- The per-index continuation of RTree._insert at an internal node:
walk to the chosen index and apply the recursion/expansion/split step
described at insertAux.  Appends performed by the source at the end of
the whole element array commute with the prefix walk. -/
def descend (maxE : Nat) (e : Elem) : Nat → Elems → Elems
  | _, .nil => .nil
  | 0, .cons (.payload s d) rest => .cons (.payload s d) (rest.push e)
  | 0, .cons (.branch b c) rest =>
    let c' := insertAux maxE e c
    if c'.elems.length > maxE then
      let lr := c'.splitN
      pushHalf (pushHalf rest lr.1) lr.2
    else
      .cons (.branch (BBox.unionB b e.ebox) c') rest
  | n + 1, .cons x rest => .cons x (descend maxE e n rest)
end

/-- RTree._splitRoot (lines 290-300): split the root and place the two
halves under a fresh internal root. -/
def splitRootN (r : RNode) : RNode :=
  let lr := r.splitN
  .node false (pushHalf (pushHalf .nil lr.1) lr.2)

/-- RTree.insert (lines 235-242): wrap the payload and shape in a leaf
element, insert from the root, and split the root if it overflows. -/
def RTree.insertT (t : RTree) (d : Payload) (s : Shape) : RTree :=
  let r := insertAux t.maxEntries (.payload s d) t.root
  if r.elems.length > t.maxEntries then { t with root := splitRootN r }
  else { t with root := r }

mutual
/-- RTree._search (lines 308-318) on a node. -/
def searchN (q : Shape) : RNode → List Payload
  | .node l es => searchE q l es
/-- RTree._search element loop: visit elements whose shape intersects
the query; emit the payload when the host node is a leaf and the element
has data, otherwise recurse into an existing child. -/
def searchE (q : Shape) (isLeaf : Bool) : Elems → List Payload
  | .nil => []
  | .cons (.payload s d) rest =>
    (if s.intersectsS q && isLeaf then [d] else []) ++ searchE q isLeaf rest
  | .cons (.branch b c) rest =>
    (if (Shape.rect b).intersectsS q then searchN q c else []) ++ searchE q isLeaf rest
end

/-- RTree.search (lines 302-306). -/
def RTree.searchT (t : RTree) (q : Shape) : List Payload :=
  searchN q t.root

mutual
/-- RTree._searchElementById (lines 325-339) on a node; returns the data
of the found element (searchById, lines 320-323, returns element.data). -/
def searchByIdN (id : Int) : RNode → Option Payload
  | .node l es => searchByIdE id l es
/-- RTree._searchElementById element loop: in a leaf, compare each
payload's id; otherwise recurse into children, first hit wins. -/
def searchByIdE (id : Int) (isLeaf : Bool) : Elems → Option Payload
  | .nil => none
  | .cons (.payload _ d) rest =>
    if isLeaf then
      if d.id = id then some d else searchByIdE id isLeaf rest
    else searchByIdE id isLeaf rest
  | .cons (.branch _ c) rest =>
    match searchByIdN id c with
    | some d => some d
    | none => searchByIdE id isLeaf rest
end

mutual
/-- RTree._findElementById (lines 359-376), modelled as returning the
list of child indices from this node down to the leaf holding the entry
with the given id, together with the entry's index inside that leaf.
The source records (node, element) pairs; the indices identify the same
objects positionally. -/
def findPathN (id : Int) : RNode → Option (List Nat × Nat)
  | .node l es => findPathE id l 0 es
/-- RTree._findElementById element loop, with i the index of the current
element. -/
def findPathE (id : Int) (isLeaf : Bool) (i : Nat) : Elems → Option (List Nat × Nat)
  | .nil => none
  | .cons (.payload _ d) rest =>
    if isLeaf then
      if d.id = id then some ([], i) else findPathE id isLeaf (i + 1) rest
    else findPathE id isLeaf (i + 1) rest
  | .cons (.branch _ c) rest =>
    match findPathN id c with
    | some (p, j) => some (i :: p, j)
    | none => findPathE id isLeaf (i + 1) rest
end


/-- The leaf-entry removal step of RTree.deleteById (line 346):
follow the recorded child-index path to the leaf and splice out the
found element. -/
def removeAtPath : List Nat → Nat → RNode → RNode
  | [], j, .node l es => .node l (es.eraseAt j)
  | i :: p, j, .node l es =>
    match es.get? i with
    | some (.branch b c) => .node l (es.setAt i (.branch b (removeAtPath p j c)))
    | _ => .node l es

/-- RTree._condenseTree walk (lines 378-395), processed bottom-up in the
source and equivalently top-down here since each step touches a distinct
node level.  For each path pair (node, parentElement), parentElement is
the element INSIDE node that leads to the next path node (null at the
leaf), as recorded by _findElementById.  Consequences faithfully
modelled:
the detach branch calls node.parent.removeElement(parentElement) with an
element that is never in node.parent.elements (indexOf by object identity
returns -1), so it removes nothing and the under-full node stays attached
while being queued for reinsertion; the refresh branch assigns
node.getMBR() to the element inside node that points at its child.
Returns the rebuilt node and the queued (eliminated) nodes, deepest
first.  The subsequent reinsertion phase (lines 397-404) iterates each
queued node's LIVE element array, which can grow while being iterated
when an insertion lands back in a queued node that is still attached;
that object-identity behaviour has no general counterpart in a value
embedding, so this file applies the loop's insertions explicitly, one
insertAux per iteration the source performs, and only on inputs where
the iterated arrays provably do not grow (or the queue is empty). -/
def condenseStep (minE : Nat) (isRoot : Bool) : List Nat → RNode → RNode × List RNode
  | [], n =>
    if !isRoot && n.elems.length < minE then (n, [n]) else (n, [])
  | i :: p, .node l es =>
    match es.get? i with
    | some (.branch b c) =>
      let r := condenseStep minE false p c
      let es' := es.setAt i (.branch b r.1)
      if !isRoot && es'.length < minE then (.node l es', r.2 ++ [.node l es'])
      else
        if es'.length > 0 then
          match Elems.getMBR es' with
          | some mb => (.node l (es'.setAt i (.branch mb r.1)), r.2)
          | none => (.node l es', r.2)
        else (.node l es', r.2)
    | _ => (.node l es, [])

/-- Root collapse (lines 350-352): an internal root with exactly one
element is replaced by that element's child.  The source reads
elements[0].child with a non-null assertion; a single payload element in
an internal root is left unchanged here (the source would set the root
to undefined). -/
def rootCollapse : RNode → RNode
  | .node false (.cons (.branch _ c) .nil) => c
  | n => n

/-- The constructor-name tag emitted by convertRTreeToJSON
(element.shape.constructor.name, line 522). -/
def shapeKindName : Shape → String
  | .rect _ => "BoundingBox"
  | .circle _ _ _ => "Circle"
  | .polygon _ => "Polygon"

/- The introspection record produced by convertRTreeToJSON (lines
516-558).  Exactly one of the three element forms occurs per entry:
data when the host node is a leaf and the element has data, child when
the element has a child, bare otherwise. -/
mutual
inductive JElem : Type where
  | dataE (index : Nat) (shapeType : String) (mbr : BBox) (d : Payload) : JElem
  | childE (index : Nat) (shapeType : String) (mbr : BBox) (c : JNode) : JElem
  | bareE (index : Nat) (shapeType : String) (mbr : BBox) : JElem
inductive JElems : Type where
  | nil : JElems
  | cons (e : JElem) (rest : JElems) : JElems
inductive JNode : Type where
  | mk (type : String) (level : Nat) (mbr : Option BBox) (elements : JElems) : JNode
end

mutual
/-- convertRTreeToJSON (lines 516-558): node kind tag, depth, coverage
MBR (null iff the node is empty) and the per-element records. -/
def toJsonN (lvl : Nat) : RNode → JNode
  | .node l es =>
    .mk (if l then "Leaf" else "Internal") lvl (Elems.getMBR es) (toJsonE lvl l 1 es)
/-- convertRTreeToJSON element map with 1-based index. -/
def toJsonE (lvl : Nat) (isLeaf : Bool) (idx : Nat) : Elems → JElems
  | .nil => .nil
  | .cons (.payload s d) rest =>
    .cons (if isLeaf then .dataE idx (shapeKindName s) s.mbr d
           else .bareE idx (shapeKindName s) s.mbr)
      (toJsonE lvl isLeaf (idx + 1) rest)
  | .cons (.branch b c) rest =>
    .cons (.childE idx "BoundingBox" b (toJsonN (lvl + 1) c))
      (toJsonE lvl isLeaf (idx + 1) rest)
end

mutual
/-- Number of nodes reachable from a node through child links. -/
def nCountN : RNode → Nat
  | .node _ es => 1 + nCountE es
/-- Reachable-node count over an element list. -/
def nCountE : Elems → Nat
  | .nil => 0
  | .cons (.payload _ _) rest => nCountE rest
  | .cons (.branch _ c) rest => nCountN c + nCountE rest
end

mutual
/-- Number of node records inside an introspection record: the visits
the traversal performed. -/
def jCountN : JNode → Nat
  | .mk _ _ _ es => 1 + jCountE es
/-- Visit count over element records. -/
def jCountE : JElems → Nat
  | .nil => 0
  | .cons (.childE _ _ _ c) rest => jCountN c + jCountE rest
  | .cons (.dataE _ _ _ _) rest => jCountE rest
  | .cons (.bareE _ _ _) rest => jCountE rest
end

/- State-threading forms of the three read-only operations.  They mirror
the source statement by statement, returning the node alongside the
result; a child a traversal descends into is put back in place of the
old one, exactly as the aliased mutation in the source would leave it.
That each returns its input unchanged is the frame property. -/
mutual
/-- RTree._search with the traversed node threaded through. -/
def searchStN (q : Shape) : RNode → List Payload × RNode
  | .node l es =>
    let r := searchStE q l es
    (r.1, .node l r.2)
/-- Element loop of searchStN. -/
def searchStE (q : Shape) (isLeaf : Bool) : Elems → List Payload × Elems
  | .nil => ([], .nil)
  | .cons (.payload s d) rest =>
    let r := searchStE q isLeaf rest
    ((if s.intersectsS q && isLeaf then [d] else []) ++ r.1, .cons (.payload s d) r.2)
  | .cons (.branch b c) rest =>
    let r := searchStE q isLeaf rest
    if (Shape.rect b).intersectsS q then
      let rc := searchStN q c
      (rc.1 ++ r.1, .cons (.branch b rc.2) r.2)
    else (r.1, .cons (.branch b c) r.2)
end

mutual
/-- RTree._searchElementById with the traversed node threaded through. -/
def searchByIdStN (id : Int) : RNode → Option Payload × RNode
  | .node l es =>
    let r := searchByIdStE id l es
    (r.1, .node l r.2)
/-- Element loop of searchByIdStN. -/
def searchByIdStE (id : Int) (isLeaf : Bool) : Elems → Option Payload × Elems
  | .nil => (none, .nil)
  | .cons (.payload s d) rest =>
    if isLeaf && decide (d.id = id) then (some d, .cons (.payload s d) rest)
    else
      let r := searchByIdStE id isLeaf rest
      (r.1, .cons (.payload s d) r.2)
  | .cons (.branch b c) rest =>
    let rc := searchByIdStN id c
    match rc.1 with
    | some d => (some d, .cons (.branch b rc.2) rest)
    | none =>
      let r := searchByIdStE id isLeaf rest
      (r.1, .cons (.branch b rc.2) r.2)
end

mutual
/-- convertRTreeToJSON with the traversed node threaded through. -/
def toJsonStN (lvl : Nat) : RNode → JNode × RNode
  | .node l es =>
    let r := toJsonStE lvl l 1 es
    (.mk (if l then "Leaf" else "Internal") lvl (Elems.getMBR es) r.1, .node l r.2)
/-- Element loop of toJsonStN. -/
def toJsonStE (lvl : Nat) (isLeaf : Bool) (idx : Nat) : Elems → JElems × Elems
  | .nil => (.nil, .nil)
  | .cons (.payload s d) rest =>
    let r := toJsonStE lvl isLeaf (idx + 1) rest
    (.cons (if isLeaf then .dataE idx (shapeKindName s) s.mbr d
            else .bareE idx (shapeKindName s) s.mbr) r.1,
     .cons (.payload s d) r.2)
  | .cons (.branch b c) rest =>
    let rc := toJsonStN (lvl + 1) c
    let r := toJsonStE lvl isLeaf (idx + 1) rest
    (.cons (.childE idx "BoundingBox" b rc.1) r.1, .cons (.branch b rc.2) r.2)
end

mutual
/-- Decidable check of invariant I1 on internal entries: every branch
element's cached box equals the exact cover of its child's elements, and
this holds recursively. -/
def i1N : RNode → Bool
  | .node _ es => i1E es
/-- Element-list form of i1N. -/
def i1E : Elems → Bool
  | .nil => true
  | .cons (.payload _ _) rest => i1E rest
  | .cons (.branch b c) rest =>
    decide (Elems.getMBR c.elems = some b) && i1N c && i1E rest
end

namespace Elems

/-- slice(0, n) and slice(n) concatenate back to the original array. -/
theorem take_append_drop : (n : Nat) → (es : Elems) → append (take n es) (drop n es) = es
  | 0, _ => rfl
  | _ + 1, .nil => rfl
  | n + 1, .cons e rest => by
    rw [take, drop, append, take_append_drop n rest]

/-- Length of slice(0, n). -/
theorem length_take : (n : Nat) → (es : Elems) → (take n es).length = min n es.length
  | 0, es => by simp [take, length]
  | _ + 1, .nil => by simp [take, length]
  | n + 1, .cons e rest => by
    rw [take, length, length, length_take n rest]
    omega

/-- Length of slice(n). -/
theorem length_drop : (n : Nat) → (es : Elems) → (drop n es).length = es.length - n
  | 0, es => by simp [drop]
  | _ + 1, .nil => by simp [drop, length]
  | n + 1, .cons e rest => by
    rw [drop, length, length_drop n rest]
    omega

end Elems

/-- The chooseGo loop keeps the accumulator unless some later element has
a strictly smaller area enlargement; the reported pair is then the
earliest such global minimiser.  bv is always the area increase of the
current best element at every call site. -/
theorem chooseGo_spec (eb : BBox) : (rest : Elems) → (idx bi : Nat) → (be : Elem) →
    (chooseGo eb rest idx bi be (areaInc eb be) = (bi, be)
      ∧ (∀ k y, rest.get? k = some y → areaInc eb be ≤ areaInc eb y))
    ∨ (∃ k y, rest.get? k = some y
        ∧ chooseGo eb rest idx bi be (areaInc eb be) = (idx + k, y)
        ∧ areaInc eb y < areaInc eb be
        ∧ (∀ j z, rest.get? j = some z → areaInc eb y ≤ areaInc eb z)
        ∧ (∀ j z, j < k → rest.get? j = some z → areaInc eb y < areaInc eb z))
  | .nil, idx, bi, be => by
    left
    refine ⟨rfl, fun k y hk => ?_⟩
    cases k <;> simp [Elems.get?] at hk
  | .cons e rest, idx, bi, be => by
    rw [chooseGo]
    by_cases h : areaInc eb e < areaInc eb be
    · rw [if_pos h]
      rcases chooseGo_spec eb rest (idx + 1) idx e with ⟨heq, hmin⟩ | ⟨k, y, hk, heq, hlt, hmin, hstrict⟩
      · right
        refine ⟨0, e, rfl, by rw [heq, Nat.add_zero], h, ?_, ?_⟩
        · intro j z hj
          cases j with
          | zero => simp [Elems.get?] at hj; exact hj ▸ le_refl _
          | succ j => exact hmin j z hj
        · intro j z hj _
          omega
      · right
        refine ⟨k + 1, y, hk, ?_, lt_trans hlt h, ?_, ?_⟩
        · rw [heq]; congr 1; omega
        · intro j z hj
          cases j with
          | zero =>
            simp [Elems.get?] at hj
            exact hj ▸ le_of_lt hlt
          | succ j => exact hmin j z hj
        · intro j z hjk hj
          cases j with
          | zero =>
            simp [Elems.get?] at hj
            exact hj ▸ hlt
          | succ j => exact hstrict j z (by omega) hj
    · rw [if_neg h]
      rcases chooseGo_spec eb rest (idx + 1) bi be with ⟨heq, hmin⟩ | ⟨k, y, hk, heq, hlt, hmin, hstrict⟩
      · left
        refine ⟨heq, fun k y hk => ?_⟩
        cases k with
        | zero =>
          simp [Elems.get?] at hk
          exact hk ▸ le_of_not_lt h
        | succ k => exact hmin k y hk
      · right
        refine ⟨k + 1, y, hk, ?_, hlt, ?_, ?_⟩
        · rw [heq]; congr 1; omega
        · intro j z hj
          cases j with
          | zero =>
            simp [Elems.get?] at hj
            exact hj ▸ le_of_lt (lt_of_lt_of_le hlt (le_of_not_lt h))
          | succ j => exact hmin j z hj
        · intro j z hjk hj
          cases j with
          | zero =>
            simp [Elems.get?] at hj
            exact hj ▸ lt_of_lt_of_le hlt (le_of_not_lt h)
          | succ j => exact hstrict j z (by omega) hj

mutual
/-- The search traversal hands every node back unchanged. -/
theorem searchStN_frame (q : Shape) : (n : RNode) →
    searchStN q n = (searchN q n, n)
  | .node l es => by
    rw [searchStN, searchN, searchStE_frame q l es]

/-- Element-list form of searchStN_frame. -/
theorem searchStE_frame (q : Shape) (l : Bool) : (es : Elems) →
    searchStE q l es = (searchE q l es, es)
  | .nil => rfl
  | .cons (.payload s d) rest => by
    rw [searchStE, searchE, searchStE_frame q l rest]
  | .cons (.branch b c) rest => by
    rw [searchStE, searchE, searchStE_frame q l rest]
    by_cases hb : (Shape.rect b).intersectsS q = true
    · rw [if_pos hb, if_pos hb, searchStN_frame q c]
    · rw [if_neg hb, if_neg hb]
      simp
end

mutual
/-- The searchById traversal hands every node back unchanged. -/
theorem searchByIdStN_frame (id : Int) : (n : RNode) →
    searchByIdStN id n = (searchByIdN id n, n)
  | .node l es => by
    rw [searchByIdStN, searchByIdN, searchByIdStE_frame id l es]

/-- Element-list form of searchByIdStN_frame. -/
theorem searchByIdStE_frame (id : Int) (l : Bool) : (es : Elems) →
    searchByIdStE id l es = (searchByIdE id l es, es)
  | .nil => rfl
  | .cons (.payload s d) rest => by
    rw [searchByIdStE, searchByIdE]
    cases l with
    | false => simp [searchByIdStE_frame id false rest]
    | true =>
      by_cases hd : d.id = id
      · simp [hd]
      · simp [hd, searchByIdStE_frame id true rest]
  | .cons (.branch b c) rest => by
    rw [searchByIdStE, searchByIdE, searchByIdStN_frame id c]
    cases hc : searchByIdN id c with
    | some d => simp
    | none => simp [searchByIdStE_frame id l rest]
end

mutual
/-- The introspection traversal hands every node back unchanged. -/
theorem toJsonStN_frame (lvl : Nat) : (n : RNode) →
    toJsonStN lvl n = (toJsonN lvl n, n)
  | .node l es => by
    rw [toJsonStN, toJsonN, toJsonStE_frame lvl l es 1]

/-- Element-list form of toJsonStN_frame. -/
theorem toJsonStE_frame (lvl : Nat) (l : Bool) : (es : Elems) → (idx : Nat) →
    toJsonStE lvl l idx es = (toJsonE lvl l idx es, es)
  | .nil, _ => rfl
  | .cons (.payload s d) rest, idx => by
    rw [toJsonStE, toJsonE, toJsonStE_frame lvl l rest (idx + 1)]
  | .cons (.branch b c) rest, idx => by
    rw [toJsonStE, toJsonE, toJsonStE_frame lvl l rest (idx + 1), toJsonStN_frame (lvl + 1) c]
end

mutual
/-- The introspection record contains one node record per reachable
node: the traversal visits each exactly once. -/
theorem jCount_toJson (lvl : Nat) : (n : RNode) →
    jCountN (toJsonN lvl n) = nCountN n
  | .node l es => by
    rw [toJsonN, jCountN, nCountN, jCountE_toJson lvl l es 1]

/-- Element-list form of jCount_toJson. -/
theorem jCountE_toJson (lvl : Nat) (l : Bool) : (es : Elems) → (idx : Nat) →
    jCountE (toJsonE lvl l idx es) = nCountE es
  | .nil, _ => rfl
  | .cons (.payload s d) rest, idx => by
    rw [toJsonE, nCountE]
    cases l with
    | false => rw [if_neg (by decide), jCountE, jCountE_toJson lvl false rest (idx + 1)]
    | true => rw [if_pos rfl, jCountE, jCountE_toJson lvl true rest (idx + 1)]
  | .cons (.branch b c) rest, idx => by
    rw [toJsonE, nCountE, jCountE, jCount_toJson (lvl + 1) c, jCountE_toJson lvl l rest (idx + 1)]
end

/-- Modelled from the spec: the choose-subtree rule of section 4.1,
picking the entry with the smallest area enlargement, breaking ties by
smaller current MBR area and then by first position.  Kept separate from
chooseBest (which embeds the source) for comparison. -/
def specGo (eb : BBox) : Elems → Nat → Nat → Elem → Nat × Elem
  | .nil, _, bi, be => (bi, be)
  | .cons e rest, idx, bi, be =>
    if decide (areaInc eb e < areaInc eb be) ||
       (decide (areaInc eb e = areaInc eb be) && decide (e.ebox.areaB < be.ebox.areaB)) then
      specGo eb rest (idx + 1) idx e
    else specGo eb rest (idx + 1) bi be

/-- Modelled from the spec: entry point of the spec's choose-subtree
rule. -/
def specChoose (eb : BBox) : Elems → Option (Nat × Elem)
  | .nil => none
  | .cons e rest => some (specGo eb rest 1 0 e)

/-- Rectangle shape shorthand for the concrete fixtures below. -/
def bx (a b c d : Int) : Shape := .rect ⟨a, b, c, d⟩

/-- Payload shorthand for the concrete fixtures below. -/
def pay (i : Int) : Payload := ⟨i, "o"⟩

/-- Fixture: maxEntries 4, payloads 1..5 inserted with unit squares at
(i, i); the fifth insert splits the root into leaves of two and three
entries. -/
def TA1 : RTree :=
  (((((RTree.make (some 4)).insertT (pay 1) (bx 1 1 2 2)).insertT
    (pay 2) (bx 2 2 3 3)).insertT (pay 3) (bx 3 3 4 4)).insertT
    (pay 4) (bx 4 4 5 5)).insertT (pay 5) (bx 5 5 6 6)

/-- Fixture: the walk of deleteById 5 on TA1: _findElementById records
child index 1 (the right leaf) with the deleted entry at index 2, and
the condense walk runs on the tree with that entry already removed. -/
def del5walk : RNode × List RNode :=
  condenseStep TA1.minEntries true [1] (removeAtPath [1] 2 TA1.root)

/-- Fixture: the tree deleteById 5 leaves behind: remove, condense
walk, no reinsertion (the elimination queue is empty, so the source's
for-of loop over eliminated nodes has no iterations), root-collapse
check (two root entries, no collapse).  With the queue empty this
composition is the source's execution of deleteById(5) statement for
statement. -/
def afterDel5 : RTree :=
  { maxEntries := 4, minEntries := 2, root := rootCollapse del5walk.1 }

/-- Fixture: the left leaf of TA1 (payloads 1 and 2), untouched by
deleteById 5. -/
def LLa : RNode :=
  .node true (.cons (.payload (bx 1 1 2 2) (pay 1))
    (.cons (.payload (bx 2 2 3 3) (pay 2)) .nil))

/-- Fixture: the right leaf after deleteById 5 (payloads 3 and 4),
whose tight cover is (3,3,5,5). -/
def RLa : RNode :=
  .node true (.cons (.payload (bx 3 3 4 4) (pay 3))
    (.cons (.payload (bx 4 4 5 5) (pay 4)) .nil))

/-- Fixture: maxEntries 4, payload 1 with a large rectangle covering
everything and payloads 2..5 with small squares; the fifth insert
splits the root into a left leaf (payloads 1, 2; cover (0,0,10,10))
and a right leaf (payloads 3, 4, 5; cover (2,2,5,5)). -/
def TU1 : RTree :=
  (((((RTree.make (some 4)).insertT (pay 1) (bx 0 0 10 10)).insertT
    (pay 2) (bx 1 1 2 2)).insertT (pay 3) (bx 2 2 3 3)).insertT
    (pay 4) (bx 3 3 4 4)).insertT (pay 5) (bx 4 4 5 5)

/-- Fixture: the walk of deleteById 3 on TU1: the right leaf drops to
two entries, not under-full, the elimination queue is empty, and the
root-level refresh writes root.getMBR() = (0,0,10,10) into the right
entry. -/
def del3walk : RNode × List RNode :=
  condenseStep TU1.minEntries true [1] (removeAtPath [1] 0 TU1.root)

/-- Fixture: TU1 after deleteById 3 (empty queue, so again the
composition is the source's execution). -/
def TU2 : RTree :=
  { maxEntries := 4, minEntries := 2, root := rootCollapse del3walk.1 }

/-- Fixture: the under-full right leaf that deleteById 4 on TU2
queues: a single entry, payload 5 with box (4,4,5,5). -/
def QL : RNode := .node true (.cons (.payload (bx 4 4 5 5) (pay 5)) .nil)

/-- Fixture: the walk of deleteById 4 on TU2: the right leaf drops to
the single payload 5, below minEntries 2, and is queued while its
parent entry stays in the root: the detach hands an element of the
leaf itself to the parent's removeElement, whose identity indexOf
finds no such element. -/
def del4walk : RNode × List RNode :=
  condenseStep TU2.minEntries true [1] (removeAtPath [1] 0 TU2.root)

/-- Fixture: the tree deleteById 4 on TU2 leaves behind.  The source's
reinsertion loop (for element of node.elements) iterates the queued
leaf's live array, which holds exactly the payload-5 entry; _insert
places that entry under the FIRST root entry (zero enlargement at the
earlier position, hence the left subtree), so the iterated array never
grows, the loop ends after this single insertion, and the single
insertAux application below performs exactly the iterations the
source performs.  The root-collapse check then sees two root entries
and leaves the root alone. -/
def TU3 : RTree :=
  { maxEntries := 4, minEntries := 2,
    root := rootCollapse (insertAux 4 (.payload (bx 4 4 5 5) (pay 5)) del4walk.1) }

/-- Fixture: maxEntries 2, three rectangles nested at the origin; the
third insert splits the root into a one-entry leaf covering (0,0,4,4)
and a two-entry leaf covering (0,0,2,2). -/
def TB : RTree :=
  (((RTree.make (some 2)).insertT (pay 1) (bx 0 0 4 4)).insertT
    (pay 2) (bx 0 0 1 1)).insertT (pay 3) (bx 0 0 2 2)

/-- Fixture: TB's first root entry, cached box (0,0,4,4), area 16. -/
def Ebig : Elem :=
  .branch ⟨0, 0, 4, 4⟩ (.node true (.cons (.payload (bx 0 0 4 4) (pay 1)) .nil))

/-- Fixture: TB's second root entry, cached box (0,0,2,2), area 4. -/
def Esmall : Elem :=
  .branch ⟨0, 0, 2, 2⟩ (.node true (.cons (.payload (bx 0 0 1 1) (pay 2))
    (.cons (.payload (bx 0 0 2 2) (pay 3)) .nil)))

/-- Fixture: TB's root element list. -/
def EScex : Elems := .cons Ebig (.cons Esmall .nil)

/-- Fixture: the element list of TA1's root before the fifth insert
splits it: the five payload entries in insertion order. -/
def ES5 : Elems :=
  .cons (.payload (bx 1 1 2 2) (pay 1)) (.cons (.payload (bx 2 2 3 3) (pay 2))
    (.cons (.payload (bx 3 3 4 4) (pay 3)) (.cons (.payload (bx 4 4 5 5) (pay 4))
      (.cons (.payload (bx 5 5 6 6) (pay 5)) .nil))))

/-- Claim C1 (code bug): search is claimed to return exactly the
payloads of a duplicate-free linear scan on every reachable tree.  TU3
is reachable by terminating public operations: after the five inserts,
deleteById 3 runs with an empty elimination queue, and deleteById 4
queues the still-attached under-full right leaf, whose single entry is
then reinserted into the left subtree (the first root entry needs zero
enlargement), so the leaf's live array never grows and the source's
reinsertion loop stops after that one insertion.  The final tree,
exhibited in full, holds payload 5 both in the never-detached right
leaf and in the left leaf, so search returns payload 5 twice while a
linear scan over the four stored payloads is duplicate-free. -/
theorem search_duplicates_after_delete :
    findPathN 3 TU1.root = some ([1], 0)
    ∧ del3walk.2 = []
    ∧ findPathN 4 TU2.root = some ([1], 0)
    ∧ del4walk.2 = [QL]
    ∧ TU3.root = RNode.node false (.cons (.branch ⟨0, 0, 10, 10⟩
        (.node true (.cons (.payload (bx 0 0 10 10) (pay 1))
          (.cons (.payload (bx 1 1 2 2) (pay 2))
            (.cons (.payload (bx 4 4 5 5) (pay 5)) .nil)))))
        (.cons (.branch ⟨0, 0, 10, 10⟩ QL) .nil))
    ∧ TU3.searchT (bx 0 0 20 20) = [pay 1, pay 2, pay 5, pay 5]
    ∧ ¬ (TU3.searchT (bx 0 0 20 20)).Nodup :=
  ⟨rfl, rfl, rfl, rfl, rfl, rfl, by decide⟩

/-- Claim C2 (code bug): invariants I1-I5 are claimed to hold after
every public operation.  deleteById 5 on TA1 involves no reinsertion
at all (the right leaf keeps two entries, so the elimination queue is
empty and the source's reinsertion loop has no iterations), yet I1
fails afterwards: the condense refresh writes root.getMBR() =
(1,1,6,6) into the root entry for the right leaf, whose exact cover is
(3,3,5,5). -/
theorem invariants_broken_after_delete :
    findPathN 5 TA1.root = some ([1], 2)
    ∧ del5walk.2 = []
    ∧ i1N TA1.root = true
    ∧ i1N afterDel5.root = false :=
  ⟨rfl, rfl, rfl, rfl⟩

/-- Claim C3 (code bug): the condense pass is claimed to detach the
parent entry of every under-full path node and to refresh every other
path node's parent entry to the tight cover of that node's entries.
Both branches act on the wrong element.  Refresh: after deleteById 5
on TA1 (no reinsertion, empty queue) the right leaf's parent entry
holds (1,1,6,6) - the cover of the ROOT's entries - instead of the
leaf's tight cover (3,3,5,5).  Detach: in the walk of deleteById 4 on
TU2 the under-full right leaf is queued for reinsertion, yet its
parent entry is still present in the root, because removeElement was
handed an element of the leaf itself, which the parent's identity
indexOf does not contain. -/
theorem condense_detach_refresh_misdirected :
    TA1.minEntries = 2
    ∧ afterDel5.root = RNode.node false (.cons (.branch ⟨1, 1, 3, 3⟩ LLa)
        (.cons (.branch ⟨1, 1, 6, 6⟩ RLa) .nil))
    ∧ Elems.getMBR RLa.elems = some ⟨3, 3, 5, 5⟩
    ∧ del4walk.2 = [QL]
    ∧ Elems.get? del4walk.1.elems 1 = some (.branch ⟨0, 0, 10, 10⟩ QL) :=
  ⟨rfl, rfl, rfl, rfl, rfl⟩

/-- Claim C4 (counterexample): the spec claims enlargement ties during
choose-subtree are broken by smaller current MBR area.  On the
reachable root of TB (maxEntries 2) both entries need zero enlargement
for the box (0,0,1,1); the source keeps the first entry (area 16)
although the second has area 4, while the spec rule picks the
second. -/
theorem chooseSubtree_no_area_tiebreak :
    TB.root = RNode.node false EScex
    ∧ chooseBest ⟨0, 0, 1, 1⟩ EScex = some (0, Ebig)
    ∧ areaInc ⟨0, 0, 1, 1⟩ Ebig = areaInc ⟨0, 0, 1, 1⟩ Esmall
    ∧ Esmall.ebox.areaB < Ebig.ebox.areaB
    ∧ specChoose ⟨0, 0, 1, 1⟩ EScex = some (1, Esmall) :=
  ⟨rfl, rfl, rfl, by decide, rfl⟩

/-- Claim C4 (amended): during insert's descent the chosen entry is the
first entry, in element order, whose MBR needs the minimal area
enlargement to include the new shape's MBR; there is no tie-break by
area. -/
theorem chooseBest_first_minimiser (eb : BBox) (es : Elems) (i : Nat) (el : Elem)
    (h : chooseBest eb es = some (i, el)) :
    es.get? i = some el
    ∧ (∀ j y, es.get? j = some y → areaInc eb el ≤ areaInc eb y)
    ∧ (∀ j y, j < i → es.get? j = some y → areaInc eb el < areaInc eb y) := by
  cases es with
  | nil => simp [chooseBest] at h
  | cons e rest =>
    rw [chooseBest] at h
    injection h with h
    rcases chooseGo_spec eb rest 1 0 e with ⟨heq, hmin⟩ | ⟨k, y, hk, heq, hlt, hmin, hstrict⟩
    · have hpair := heq.symm.trans h
      injection hpair with h1 h2
      subst h2
      refine h1 ▸ ⟨rfl, ?_, ?_⟩
      · intro j z hj
        cases j with
        | zero =>
          rw [Elems.get?] at hj
          injection hj with hj
          exact hj ▸ le_refl _
        | succ j => exact hmin j z hj
      · intro j z hji
        omega
    · have hpair := heq.symm.trans h
      injection hpair with h1 h2
      subst h2
      have hik : i = k + 1 := by omega
      subst hik
      refine ⟨hk, ?_, ?_⟩
      · intro j z hj
        cases j with
        | zero =>
          rw [Elems.get?] at hj
          injection hj with hj
          exact hj ▸ le_of_lt hlt
        | succ j => exact hmin j z hj
      · intro j z hji hj
        cases j with
        | zero =>
          rw [Elems.get?] at hj
          injection hj with hj
          exact hj ▸ hlt
        | succ j => exact hstrict j z (by omega) hj

/-- Claim C4 witness: the amended rule evaluated on TB's root elements
with query box (0,0,1,1): index 0 is returned and achieves minimal
enlargement. -/
theorem chooseBest_first_minimiser_witness :
    Elems.get? EScex 0 = some Ebig
    ∧ (∀ j y, Elems.get? EScex j = some y →
        areaInc ⟨0, 0, 1, 1⟩ Ebig ≤ areaInc ⟨0, 0, 1, 1⟩ y)
    ∧ (∀ j y, j < 0 → Elems.get? EScex j = some y →
        areaInc ⟨0, 0, 1, 1⟩ Ebig < areaInc ⟨0, 0, 1, 1⟩ y) :=
  chooseBest_first_minimiser ⟨0, 0, 1, 1⟩ EScex 0 Ebig rfl

/-- Claim C5: a node holding exactly maxEntries + 1 entries splits into
two nodes of sizes floor((m+1)/2) (left half) and ceil((m+1)/2) =
(m+2)/2 (right half), and the concatenation of the halves in order is
the original element sequence. -/
theorem split_halves (b : Bool) (es : Elems) (m : Nat) (h : es.length = m + 1) :
    (RNode.node b es).splitN.1.elems.length = (m + 1) / 2
    ∧ (RNode.node b es).splitN.2.elems.length = (m + 2) / 2
    ∧ Elems.append (RNode.node b es).splitN.1.elems (RNode.node b es).splitN.2.elems = es := by
  refine ⟨?_, ?_, ?_⟩
  · show (Elems.take (es.length / 2) es).length = (m + 1) / 2
    rw [Elems.length_take, h]
    omega
  · show (Elems.drop (es.length / 2) es).length = (m + 2) / 2
    rw [Elems.length_drop, h]
    omega
  · show Elems.append (Elems.take (es.length / 2) es) (Elems.drop (es.length / 2) es) = es
    exact Elems.take_append_drop _ es

/-- Claim C5 witness: splitting the five-entry list ES5 (maxEntries 4)
gives halves of two and three entries whose concatenation is ES5. -/
theorem split_halves_witness :
    (RNode.node true ES5).splitN.1.elems.length = 2
    ∧ (RNode.node true ES5).splitN.2.elems.length = 3
    ∧ Elems.append (RNode.node true ES5).splitN.1.elems (RNode.node true ES5).splitN.2.elems = ES5 :=
  split_halves true ES5 4 rfl

/-- Claim C8 (counterexample): the factory's maxEntries parameter
defaults to 4 when omitted, not 8 as the spec claims (the demonstration
driver passes 8 explicitly; the constructor default is 4). -/
theorem make_default_is_four_cex :
    (RTree.make none).maxEntries = 4 ∧ (RTree.make none).maxEntries ≠ 8 :=
  ⟨rfl, by decide⟩

/-- Claim C8 (amended): the factory accepts a maxEntries parameter
defaulting to 4 when omitted, and for every accepted maxEntries the
constructed tree's minEntries is floor(maxEntries / 2). -/
theorem make_spec_amended :
    (RTree.make none).maxEntries = 4
    ∧ (∀ m, (RTree.make (some m)).maxEntries = m)
    ∧ (∀ m?, (RTree.make m?).minEntries = (RTree.make m?).maxEntries / 2) :=
  ⟨rfl, fun _ => rfl, fun _ => rfl⟩

/-- Claim C9: box intersection returns true exactly when no separating
gap exists on either axis, with closed-interval semantics; the two
closed instances exhibit a shared edge and a shared corner reported as
intersecting. -/
theorem intersects_closed_iff :
    (∀ a b : BBox, a.intersectsB b = true ↔
      (b.minX ≤ a.maxX ∧ a.minX ≤ b.maxX ∧ b.minY ≤ a.maxY ∧ a.minY ≤ b.maxY))
    ∧ BBox.intersectsB ⟨0, 0, 1, 1⟩ ⟨1, 0, 2, 1⟩ = true
    ∧ BBox.intersectsB ⟨0, 0, 1, 1⟩ ⟨1, 1, 2, 2⟩ = true := by
  refine ⟨fun a b => ?_, by decide, by decide⟩
  simp [BBox.intersectsB, not_lt, not_or]
  tauto

/-- Claim C10: the read-only operations (search, searchById, the
introspection traversal) hand back the tree exactly as given, and the
introspection record contains one node record per reachable node, so
the traversal visits every reachable node exactly once. -/
theorem readonly_frame :
    (∀ (q : Shape) (n : RNode), searchStN q n = (searchN q n, n))
    ∧ (∀ (id : Int) (n : RNode), searchByIdStN id n = (searchByIdN id n, n))
    ∧ (∀ (lvl : Nat) (n : RNode), toJsonStN lvl n = (toJsonN lvl n, n))
    ∧ (∀ (lvl : Nat) (n : RNode), jCountN (toJsonN lvl n) = nCountN n) :=
  ⟨searchStN_frame, searchByIdStN_frame, toJsonStN_frame, jCount_toJson⟩
